import Mathlib

/-!
Verification of the react-sapient cache/invalidation engine (src/main.js)
against its natural-language specification.

The embedding models JavaScript values, the three-state per-endpoint cache,
the read path (readCache), the bitmask change-notification diff
(getChangedBits), bit registration (createEndpoint / createApi), and the
mutation coordinators (poster, creator, updater, deleter) together with the
per-mutation invalidator transaction.

Aliasing note: in the source, each endpoint closure captures the object
`endpointCache` created by `CACHE[name] = {}` at registration time.  The
invalidator rebinds `CACHE[name]` to a fresh object when `id` is omitted,
while the closures keep using the originally captured object.  To stay
faithful we model cache objects in a heap indexed by `Nat` references:
`SapState.heap` maps a reference to a table, `SapState.cacheRefs` is the
global `CACHE` map from endpoint name to its current reference, and each
endpoint closure holds the reference it captured at registration.
-/

/-- JavaScript values, as far as the claims need them.  `obj` carries an
identity so distinct objects stay distinct. -/
inductive JsValue where
  | undef
  | null
  | bool (b : Bool)
  | num (n : Int)
  | str (s : String)
  | obj (ref : Nat)
deriving DecidableEq, Repr

/-- JavaScript truthiness: `undefined`, `null`, `false`, `0` and `""` are
falsy, everything else modelled here is truthy. -/
def JsValue.truthy : JsValue → Bool
  | .undef => false
  | .null => false
  | .bool b => b
  | .num n => n != 0
  | .str s => s != ""
  | .obj _ => true

/-- The JavaScript `a || b` operator. -/
def jsOr (a b : JsValue) : JsValue :=
  if a.truthy then a else b

/-- JavaScript property-key coercion (ToString), used when a value is used
as an object key, e.g. `endpointCache[newId]`. -/
def JsValue.toKey : JsValue → String
  | .undef => "undefined"
  | .null => "null"
  | .bool b => if b then "true" else "false"
  | .num n => toString n
  | .str s => s
  | .obj r => "object:" ++ toString r

/-- A cache entry: `{ status: PENDING | RESOLVED | REJECTED, value }`.
For a pending entry the stored value is the in-flight promise, modelled by
a numeric handle. -/
inductive CacheEntry where
  | pending (handle : Nat)
  | resolved (value : JsValue)
  | rejected (error : JsValue)
deriving DecidableEq, Repr

/-- One endpoint cache object: a map from key to entry. -/
abbrev Table := String → Option CacheEntry

/-- What a call to `readCache` does to its caller: return a value, throw
the in-flight promise (suspension), or throw the stored error. -/
inductive ReadOutcome where
  | value (v : JsValue)
  | suspend (handle : Nat)
  | failure (e : JsValue)
deriving DecidableEq, Repr

/-- The readCache function of src/main.js.  On a miss it issues the fetch
(a fresh promise handle), stores a pending entry and throws the promise;
on a pending hit it throws the stored promise; on a rejected hit it throws
the stored error; on a resolved hit it returns the stored value.  Returns
(outcome, new table, next fresh handle, whether a fetch was issued). -/
def readCache (cache : Table) (fresh : Nat) (id : String) :
    ReadOutcome × Table × Nat × Bool :=
  match cache id with
  | none =>
      (.suspend fresh, fun k => if k = id then some (.pending fresh) else cache k,
        fresh + 1, true)
  | some (.pending h) => (.suspend h, cache, fresh, false)
  | some (.rejected e) => (.failure e, cache, fresh, false)
  | some (.resolved v) => (.value v, cache, fresh, false)

/-- Global state of the engine as seen by the mutation path: the heap of
cache objects, the allocator for fresh objects, the global `CACHE` map
from endpoint name to current object reference, and the notification
counters held by the shared context state. -/
structure SapState where
  heap : Nat → Table
  freshObj : Nat
  cacheRefs : String → Option Nat
  counters : String → Option Nat

/-- The invalidate callback created by `invalidator()` in src/main.js,
running inside the endpoint whose captured cache object is `selfRef`.
It records `nm` into the touched set regardless of id; with no id it
rebinds the global `CACHE[nm]` to a fresh empty object; with an id it
deletes that key from the *enclosing* endpoint cache object. -/
def invalidateStep (selfRef : Nat) (st : SapState) (touched : String → Bool)
    (nm : String) (id : Option String) : SapState × (String → Bool) :=
  let touched' : String → Bool := fun k => if k = nm then true else touched k
  match id with
  | none =>
      ({ st with
          heap := fun r => if r = st.freshObj then (fun _ => none) else st.heap r,
          cacheRefs := fun k => if k = nm then some st.freshObj else st.cacheRefs k,
          freshObj := st.freshObj + 1 }, touched')
  | some i =>
      ({ st with
          heap := fun r =>
            if r = selfRef then (fun k => if k = i then none else st.heap selfRef k)
            else st.heap r }, touched')

/-- The sequence of invalidate calls a mutation method body performs
before its promise settles, applied in order starting from an empty
touched set. -/
def runMethodBody (selfRef : Nat) (st : SapState)
    (calls : List (String × Option String)) : SapState × (String → Bool) :=
  calls.foldl (fun acc c => invalidateStep selfRef acc.1 acc.2 c.1 c.2)
    (st, fun _ => false)

/-- The triggerUpdate function of src/main.js: bump the notification
counter of every touched endpoint name by one (absent counters count as
zero). -/
def triggerUpdate (st : SapState) (touched : String → Bool) : SapState :=
  { st with
      counters := fun k =>
        if touched k then some ((st.counters k).getD 0 + 1) else st.counters k }

/-- Direct cache write `endpointCache[key] = entry` on the object `r`. -/
def writeEntry (st : SapState) (r : Nat) (key : String) (e : CacheEntry) : SapState :=
  { st with
      heap := fun r' =>
        if r' = r then (fun k' => if k' = key then some e else st.heap r k')
        else st.heap r' }

/-- The settlement of a mutation method promise: the invalidate calls it
made while running, then rejection with an error or resolution with a
value. -/
abbrev MethodOutcome := Except JsValue JsValue

/-- The poster coordinator of src/main.js: run the method body, and on
success bump counters and resolve with the response payload; on rejection
the `.then` chain propagates the error.  The second component is the
settlement of the promise returned to the caller. -/
def poster (selfRef : Nat) (st : SapState)
    (calls : List (String × Option String)) (outcome : MethodOutcome) :
    SapState × Option MethodOutcome :=
  let body := runMethodBody selfRef st calls
  match outcome with
  | .error e => (body.1, some (.error e))
  | .ok v => (triggerUpdate body.1 body.2, some (.ok v))

/-- The creator coordinator of src/main.js.  The `.then` callback is
declared as `(newId, newData) => ...`, but a promise resolution delivers a
single value, so `newId` is the whole resolution value and `newData` is
always `undefined`.  On success it writes `{RESOLVED, newData || data}`
under key `newId`, bumps counters, and resolves with `newId`. -/
def creator (selfRef : Nat) (st : SapState) (data : JsValue)
    (calls : List (String × Option String)) (outcome : MethodOutcome) :
    SapState × Option MethodOutcome :=
  let body := runMethodBody selfRef st calls
  match outcome with
  | .error e => (body.1, some (.error e))
  | .ok v =>
      let newId := v
      let newData := JsValue.undef
      let createdData := jsOr newData data
      let st2 := writeEntry body.1 selfRef newId.toKey (.resolved createdData)
      (triggerUpdate st2 body.2, some (.ok newId))

/-- The updater coordinator of src/main.js: on success it computes
`newData || data`, calls `invalidate(name, id)` (own endpoint, so the
entry is deleted from the captured cache object), writes the fresh value,
bumps counters.  The `.then` callback body ends without a return
statement, so the promise handed back to the caller resolves with
`undefined`. -/
def updater (self : String) (selfRef : Nat) (id : String) (st : SapState)
    (data : JsValue) (calls : List (String × Option String))
    (outcome : MethodOutcome) : SapState × Option MethodOutcome :=
  let body := runMethodBody selfRef st calls
  match outcome with
  | .error e => (body.1, some (.error e))
  | .ok newData =>
      let updatedData := jsOr newData data
      let inv := invalidateStep selfRef body.1 body.2 self (some id)
      let st2 := writeEntry inv.1 selfRef id (.resolved updatedData)
      (triggerUpdate st2 inv.2, some (.ok JsValue.undef))

/-- The deleter coordinator of src/main.js.  Note the source does not
return the promise chain (`methods.delete(id, invalidate).then(...)` is a
statement, not a return), so the caller receives `undefined` and no
promise at all: the second component is always `none`. -/
def deleter (self : String) (selfRef : Nat) (id : String) (st : SapState)
    (calls : List (String × Option String)) (outcome : MethodOutcome) :
    SapState × Option MethodOutcome :=
  let body := runMethodBody selfRef st calls
  match outcome with
  | .error _ => (body.1, none)
  | .ok _ =>
      let inv := invalidateStep selfRef body.1 body.2 self (some id)
      (triggerUpdate inv.1 inv.2, none)

/-- Invalidate calls never touch the notification counters. -/
theorem invalidateStep_counters (selfRef : Nat) (st : SapState)
    (touched : String → Bool) (nm : String) (id : Option String) :
    (invalidateStep selfRef st touched nm id).1.counters = st.counters := by
  cases id <;> rfl

/-- A method body (any sequence of invalidate calls) never touches the
notification counters. -/
theorem runMethodBody_counters (selfRef : Nat) (st : SapState)
    (calls : List (String × Option String)) :
    (runMethodBody selfRef st calls).1.counters = st.counters := by
  suffices h : ∀ (calls : List (String × Option String)) (st : SapState)
      (touched : String → Bool),
      (calls.foldl (fun acc c => invalidateStep selfRef acc.1 acc.2 c.1 c.2)
        (st, touched)).1.counters = st.counters by
    exact h calls st (fun _ => false)
  intro calls
  induction calls with
  | nil => intro st touched; rfl
  | cons c rest ih =>
      intro st touched
      simpa [List.foldl_cons, invalidateStep_counters] using
        (ih (invalidateStep selfRef st touched c.1 c.2).1
          (invalidateStep selfRef st touched c.1 c.2).2).trans
          (invalidateStep_counters selfRef st touched c.1 c.2)

/-- A state with two registered endpoints A (object 0) and B (object 1),
each holding an entry under key "5". -/
def stAB : SapState where
  heap := fun r =>
    if r = 0 then (fun k => if k = "5" then some (.resolved (.str "a5")) else none)
    else if r = 1 then (fun k => if k = "5" then some (.resolved (.str "b5")) else none)
    else fun _ => none
  freshObj := 2
  cacheRefs := fun k => if k = "A" then some 0 else if k = "B" then some 1 else none
  counters := fun _ => none

/-- A state with a single endpoint A (object 0) holding one resolved entry
under key "7". -/
def stA : SapState where
  heap := fun r =>
    if r = 0 then (fun k => if k = "7" then some (.resolved (.str "old")) else none)
    else fun _ => none
  freshObj := 1
  cacheRefs := fun k => if k = "A" then some 0 else none
  counters := fun _ => none

/-- A completely empty engine state. -/
def emptySap : SapState where
  heap := fun _ => fun _ => none
  freshObj := 0
  cacheRefs := fun _ => none
  counters := fun _ => none

/-- Claim C2, counterexample.  A post whose method calls
invalidate("A", "5") and then rejects leaves the cache different from the
pre-call state: the entry under "5" in endpoint A was evicted immediately
when invalidate was called, so a failed mutation does not leave every
endpoint cache identical to its pre-call state. -/
theorem C2_failed_mutation_evicts_cex :
    stA.heap 0 "7" = some (.resolved (.str "old"))
    ∧ (poster 0 stA [("A", some "7")] (.error (.str "boom"))).1.heap 0 "7" = none
    ∧ (poster 0 stA [("A", some "7")] (.error (.str "boom"))).2
        = some (.error (.str "boom")) := by
  exact ⟨rfl, rfl, rfl⟩

/-- Claim C2, amended: when the underlying method rejects, the final state
is exactly the state after the invalidate calls the method body made (so
those evictions persist even though the method failed), the coordinator
performs no cache write and no counter bump, all notification counters are
identical to their pre-call state, and post, create and update propagate
the rejection unchanged. -/
theorem C2_failed_mutation_amended (selfRef : Nat) (st : SapState)
    (calls : List (String × Option String)) (e data : JsValue)
    (self id : String) :
    (poster selfRef st calls (.error e)).1 = (runMethodBody selfRef st calls).1
    ∧ (poster selfRef st calls (.error e)).2 = some (.error e)
    ∧ (creator selfRef st data calls (.error e)).1 = (runMethodBody selfRef st calls).1
    ∧ (creator selfRef st data calls (.error e)).2 = some (.error e)
    ∧ (updater self selfRef id st data calls (.error e)).1
        = (runMethodBody selfRef st calls).1
    ∧ (updater self selfRef id st data calls (.error e)).2 = some (.error e)
    ∧ (deleter self selfRef id st calls (.error e)).1
        = (runMethodBody selfRef st calls).1
    ∧ (runMethodBody selfRef st calls).1.counters = st.counters := by
  refine ⟨rfl, rfl, rfl, rfl, rfl, rfl, rfl, ?_⟩
  exact runMethodBody_counters selfRef st calls

/-- Claim C3: a successful update("7", "req") on endpoint A whose method
resolves with "new" does evict and rewrite the cache entry (a subsequent
read returns "new" synchronously without a fetch) and bumps the endpoint
counter by exactly one, but the promise returned to the caller resolves
with `undefined`, not with the new value: the `.then` callback in the
source has no return statement. -/
theorem C3_update_resolves_undefined :
    (updater "A" 0 "7" stA (.str "req") [] (.ok (.str "new"))).1.heap 0 "7"
        = some (.resolved (.str "new"))
    ∧ (updater "A" 0 "7" stA (.str "req") [] (.ok (.str "new"))).1.counters "A"
        = some 1
    ∧ readCache ((updater "A" 0 "7" stA (.str "req") [] (.ok (.str "new"))).1.heap 0) 1 "7"
        = (.value (.str "new"),
            (updater "A" 0 "7" stA (.str "req") [] (.ok (.str "new"))).1.heap 0, 1, false)
    ∧ (updater "A" 0 "7" stA (.str "req") [] (.ok (.str "new"))).2
        = some (.ok JsValue.undef) := by
  exact ⟨rfl, rfl, rfl, rfl⟩

/-- Claim C4: invalidate("B", "5") issued from a mutation running on
endpoint A (captured object 0) records "B" in the touched set, but does
NOT evict the entry of endpoint B (object 1): instead it deletes key "5"
from endpoint A, the running endpoint.  With the id omitted,
invalidate("B") rebinds the global CACHE map entry for B to a fresh empty
object, but the object endpoint B reads from is unchanged, so a read of
B/"5" still returns the old value. -/
theorem C4_invalidate_wrong_cache :
    ((invalidateStep 0 stAB (fun _ => false) "B" (some "5")).2) "B" = true
    ∧ (invalidateStep 0 stAB (fun _ => false) "B" (some "5")).1.heap 1 "5"
        = some (.resolved (.str "b5"))
    ∧ (invalidateStep 0 stAB (fun _ => false) "B" (some "5")).1.heap 0 "5" = none
    ∧ (invalidateStep 0 stAB (fun _ => false) "B" none).1.cacheRefs "B" = some 2
    ∧ (invalidateStep 0 stAB (fun _ => false) "B" none).1.heap 2 "5" = none
    ∧ (invalidateStep 0 stAB (fun _ => false) "B" none).1.heap 1 "5"
        = some (.resolved (.str "b5"))
    ∧ readCache ((invalidateStep 0 stAB (fun _ => false) "B" none).1.heap 1) 0 "5"
        = (.value (.str "b5"),
            (invalidateStep 0 stAB (fun _ => false) "B" none).1.heap 1, 0, false) := by
  exact ⟨rfl, rfl, rfl, rfl, rfl, rfl, rfl⟩

/-- Claim C7: for every successful create, the resolution value `v` is
what the source binds as `newId` (`newData` is always `undefined`, so
`newData || data` and the nullish fallback both give `data`): the
coordinator writes a resolved entry holding `data` under the key of
`newId`, a subsequent read of that key returns the created value
synchronously without issuing a fetch, the counters of exactly the touched
endpoints are bumped by one, and the returned promise resolves with
`newId`. -/
theorem C7_create_writes_cache (selfRef : Nat) (st : SapState)
    (data v : JsValue) (calls : List (String × Option String)) (fr : Nat) :
    (creator selfRef st data calls (.ok v)).1.heap selfRef v.toKey
        = some (.resolved data)
    ∧ readCache ((creator selfRef st data calls (.ok v)).1.heap selfRef) fr v.toKey
        = (.value data, (creator selfRef st data calls (.ok v)).1.heap selfRef, fr, false)
    ∧ (creator selfRef st data calls (.ok v)).2 = some (.ok v)
    ∧ (∀ k, (creator selfRef st data calls (.ok v)).1.counters k
        = if (runMethodBody selfRef st calls).2 k then some ((st.counters k).getD 0 + 1)
          else st.counters k) := by
  have hwrite : (creator selfRef st data calls (.ok v)).1.heap selfRef v.toKey
      = some (.resolved data) := by
    show (triggerUpdate (writeEntry (runMethodBody selfRef st calls).1 selfRef
        v.toKey (.resolved (jsOr JsValue.undef data))) (runMethodBody selfRef st calls).2).heap
        selfRef v.toKey = some (.resolved data)
    simp [triggerUpdate, writeEntry, jsOr, JsValue.truthy]
  refine ⟨hwrite, ?_, rfl, ?_⟩
  · simp [readCache, hwrite]
  · intro k
    show (triggerUpdate (writeEntry (runMethodBody selfRef st calls).1 selfRef
        v.toKey (.resolved (jsOr JsValue.undef data))) (runMethodBody selfRef st calls).2).counters
        k = _
    simp [triggerUpdate, writeEntry, runMethodBody_counters]

/-- Claim C8: post, create and update hand the caller a promise that, when
the underlying method rejects, rejects with the same error unchanged; but
delete does not return the promise chain at all (the source lacks a return
statement), so the caller of a delete receives no promise and the
rejection never reaches it. -/
theorem C8_delete_no_promise (selfRef : Nat) (st : SapState)
    (calls : List (String × Option String)) (e data : JsValue)
    (self id : String) :
    (poster selfRef st calls (.error e)).2 = some (.error e)
    ∧ (creator selfRef st data calls (.error e)).2 = some (.error e)
    ∧ (updater self selfRef id st data calls (.error e)).2 = some (.error e)
    ∧ (deleter self selfRef id st calls (.error e)).2 = none
    ∧ (∀ outcome, (deleter self selfRef id st calls outcome).2 = none) := by
  refine ⟨rfl, rfl, rfl, rfl, ?_⟩
  intro outcome
  cases outcome <;> rfl

/-- Claim C10: the fallback to the request payload is decided by JavaScript
truthiness, not by absence: whenever the update method resolves with any
falsy value (undefined, null, false, 0 or the empty string), the entry
written is Resolved(data) with the caller-supplied payload, and likewise
the create path writes Resolved(data) whenever its (always-undefined)
second callback argument is falsy. -/
theorem C10_falsy_fallback (self : String) (selfRef : Nat) (id : String)
    (st : SapState) (data newData v : JsValue)
    (calls : List (String × Option String))
    (hfalsy : newData.truthy = false) (_hv : v.truthy = false) :
    (updater self selfRef id st data calls (.ok newData)).1.heap selfRef id
        = some (.resolved data)
    ∧ (creator selfRef st data calls (.ok v)).1.heap selfRef v.toKey
        = some (.resolved data) := by
  constructor
  · show (triggerUpdate (writeEntry
        (invalidateStep selfRef (runMethodBody selfRef st calls).1
          (runMethodBody selfRef st calls).2 self (some id)).1 selfRef id
        (.resolved (jsOr newData data)))
        (invalidateStep selfRef (runMethodBody selfRef st calls).1
          (runMethodBody selfRef st calls).2 self (some id)).2).heap selfRef id = _
    simp [triggerUpdate, writeEntry, jsOr, hfalsy]
  · show (triggerUpdate (writeEntry (runMethodBody selfRef st calls).1 selfRef
        v.toKey (.resolved (jsOr JsValue.undef data))) (runMethodBody selfRef st calls).2).heap
        selfRef v.toKey = _
    simp [triggerUpdate, writeEntry, jsOr, JsValue.truthy]

/-- Claim C10, witness: the update method resolving with the number 0
(falsy but not nullish, and not an absent value) makes the cache hold the
request payload, and similarly for create resolving with the empty
string. -/
theorem C10_falsy_fallback_witness :
    (JsValue.num 0).truthy = false
    ∧ (JsValue.str "").truthy = false
    ∧ (updater "A" 0 "7" emptySap (.str "req") [] (.ok (.num 0))).1.heap 0 "7"
        = some (.resolved (.str "req"))
    ∧ (creator 0 emptySap (.str "req") [] (.ok (.str ""))).1.heap 0 ""
        = some (.resolved (.str "req")) := by
  refine ⟨by decide, by decide, ?_, ?_⟩
  · exact (C10_falsy_fallback "A" 0 "7" emptySap (.str "req") (.num 0) (.str "") []
      (by decide) (by decide)).1
  · exact (C10_falsy_fallback "A" 0 "7" emptySap (.str "req") (.num 0) (.str "") []
      (by decide) (by decide)).2

/-- The getChangedBits function of src/main.js: iterate over the keys of
the next notification state; whenever the previous state holds a different
value (including the key being absent, since `undefined !== number`), OR
the bit registered for that endpoint name into the mask.  A name with no
registered bit contributes nothing (`mask |= undefined` leaves the mask
unchanged after ToInt32). -/
def getChangedBits (bits : String → Option Nat) (prev next : List (String × Nat)) : Nat :=
  next.foldl
    (fun mask p =>
      if List.lookup p.1 prev = some p.2 then mask else mask ||| (bits p.1).getD 0)
    0

/-- OR of a list of masks. -/
def orAll (l : List Nat) : Nat := l.foldl (· ||| ·) 0

theorem foldl_or_acc (l : List Nat) (acc : Nat) :
    l.foldl (· ||| ·) acc = acc ||| orAll l := by
  induction l generalizing acc with
  | nil => simp [orAll]
  | cons a l ih =>
      simp only [List.foldl_cons, orAll] at *
      rw [ih (acc ||| a), ih (0 ||| a)]
      simp [Nat.lor_assoc]

theorem orAll_cons (a : Nat) (l : List Nat) : orAll (a :: l) = a ||| orAll l := by
  show l.foldl (· ||| ·) (0 ||| a) = a ||| orAll l
  rw [foldl_or_acc, Nat.zero_or]

theorem getChangedBits_eq_orAll (bits : String → Option Nat)
    (prev next : List (String × Nat)) :
    getChangedBits bits prev next
      = orAll ((next.filter
          (fun p => !(List.lookup p.1 prev = some p.2 : Bool))).map
          (fun p => (bits p.1).getD 0)) := by
  suffices h : ∀ (next : List (String × Nat)) (acc : Nat),
      next.foldl
        (fun mask p =>
          if List.lookup p.1 prev = some p.2 then mask else mask ||| (bits p.1).getD 0)
        acc
      = acc ||| orAll ((next.filter
          (fun p => !(List.lookup p.1 prev = some p.2 : Bool))).map
          (fun p => (bits p.1).getD 0)) by
    simpa [getChangedBits] using h next 0
  intro next
  induction next with
  | nil => intro acc; simp [orAll]
  | cons p l ih =>
      intro acc
      by_cases hp : List.lookup p.1 prev = some p.2
      · rw [List.foldl_cons, if_pos hp, ih]
        have hfil : List.filter (fun q => !(List.lookup q.1 prev = some q.2 : Bool)) (p :: l)
            = List.filter (fun q => !(List.lookup q.1 prev = some q.2 : Bool)) l := by
          simp [List.filter_cons, hp]
        rw [hfil]
      · rw [List.foldl_cons, if_neg hp, ih]
        have hfil : List.filter (fun q => !(List.lookup q.1 prev = some q.2 : Bool)) (p :: l)
            = p :: List.filter (fun q => !(List.lookup q.1 prev = some q.2 : Bool)) l := by
          simp [List.filter_cons, hp]
        rw [hfil, List.map_cons, orAll_cons, Nat.lor_assoc]

/-- Claim C5, counterexample.  With endpoint A registered at bit 1, the
previous state empty and the next state {A: 1}, the two states agree on
every shared key (there is none), yet the diff mask is 1, not 0: a key
present only in the next state always differs (`undefined !== 1`) and
contributes its bit. -/
theorem C5_shared_keys_cex :
    (∀ k vp vn, List.lookup k ([] : List (String × Nat)) = some vp →
        List.lookup k [("A", 1)] = some vn → vp = vn)
    ∧ getChangedBits (fun k => if k = "A" then some 1 else none) [] [("A", 1)] = 1
    ∧ getChangedBits (fun k => if k = "A" then some 1 else none) [] [("A", 1)] ≠ 0 := by
  refine ⟨?_, by decide, by decide⟩
  intro k vp vn h _
  simp [List.lookup] at h

/-- Claim C5, amended: the diff mask equals the OR of the bits of exactly
those endpoint names present in nextState whose counter differs from
prevState (absence in prevState counting as a difference); entries of
prevState at names absent from nextState contribute nothing; and the diff
is 0 whenever every entry of nextState is present in prevState with the
same counter (agreement on shared keys alone does not suffice, because a
key present only in nextState always contributes its bit). -/
theorem C5_diff_mask_amended (bits : String → Option Nat)
    (prev prev' next : List (String × Nat)) :
    (getChangedBits bits prev next
      = orAll ((next.filter
          (fun p => !(List.lookup p.1 prev = some p.2 : Bool))).map
          (fun p => (bits p.1).getD 0)))
    ∧ ((∀ k, k ∈ next.map Prod.fst → List.lookup k prev = List.lookup k prev') →
        getChangedBits bits prev next = getChangedBits bits prev' next)
    ∧ ((∀ p ∈ next, List.lookup p.1 prev = some p.2) →
        getChangedBits bits prev next = 0) := by
  refine ⟨getChangedBits_eq_orAll bits prev next, ?_, ?_⟩
  · intro hagree
    suffices h : ∀ (next : List (String × Nat)) (acc : Nat),
        (∀ k, k ∈ next.map Prod.fst → List.lookup k prev = List.lookup k prev') →
        next.foldl
          (fun mask p =>
            if List.lookup p.1 prev = some p.2 then mask else mask ||| (bits p.1).getD 0)
          acc
        = next.foldl
          (fun mask p =>
            if List.lookup p.1 prev' = some p.2 then mask else mask ||| (bits p.1).getD 0)
          acc by
      exact h next 0 hagree
    intro next
    induction next with
    | nil => intro acc _; rfl
    | cons p l ih =>
        intro acc hag
        have hp : List.lookup p.1 prev = List.lookup p.1 prev' :=
          hag p.1 (by simp)
        have hl : ∀ k, k ∈ l.map Prod.fst → List.lookup k prev = List.lookup k prev' :=
          fun k hk => hag k (by simp [hk])
        simp only [List.foldl_cons, hp]
        exact ih _ hl
  · intro hall
    suffices h : ∀ (next : List (String × Nat)) (acc : Nat),
        (∀ p ∈ next, List.lookup p.1 prev = some p.2) →
        next.foldl
          (fun mask p =>
            if List.lookup p.1 prev = some p.2 then mask else mask ||| (bits p.1).getD 0)
          acc = acc by
      exact h next 0 hall
    intro next
    induction next with
    | nil => intro acc _; rfl
    | cons p l ih =>
        intro acc hp
        simp only [List.foldl_cons, if_pos (hp p (by simp))]
        exact ih acc (fun q hq => hp q (by simp [hq]))

/-- Claim C5, witness: with A at bit 1 and B at bit 2, a next state equal
to the previous one gives mask 0 (via the amended zero clause), and
prev {A:0, B:0} against next {A:1, B:0} gives mask 1. -/
theorem C5_diff_mask_amended_witness :
    getChangedBits (fun k => if k = "A" then some 1 else if k = "B" then some 2 else none)
      [("A", 1), ("B", 0)] [("A", 1), ("B", 0)] = 0
    ∧ getChangedBits (fun k => if k = "A" then some 1 else if k = "B" then some 2 else none)
      [("A", 0), ("B", 0)] [("A", 1), ("B", 0)] = 1 := by
  refine ⟨(C5_diff_mask_amended
    (fun k => if k = "A" then some 1 else if k = "B" then some 2 else none)
    [("A", 1), ("B", 0)] [] [("A", 1), ("B", 0)]).2.2 (by decide), by decide⟩

/-- Two's-complement truncation to 32 bits, as ECMAScript ToInt32. -/
def toInt32 (n : Int) : Int := (n + 2 ^ 31) % 2 ^ 32 - 2 ^ 31

/-- The JavaScript expression `1 << count`: the shift count is taken
modulo 32 and the result is a signed 32-bit integer, so the value silently
wraps instead of growing. -/
def jsShl1 (count : Nat) : Int := toInt32 (2 ^ (count % 32))

/-- Bit registration as done by `createEndpoint`
(`ENDPOINT_BITS[name] = 1 << ENDPOINTS_COUNT++`), iterated over a list of
endpoint names as `createApi` does.  There is no capacity check and no
error path. -/
def registerFrom (bits : String → Option Int) (count : Nat) :
    List String → (String → Option Int) × Nat
  | [] => (bits, count)
  | nm :: rest =>
      registerFrom (fun k => if k = nm then some (jsShl1 count) else bits k)
        (count + 1) rest

/-- Registration of a whole api description: every name in order, starting
from the empty bit table and count 0. -/
def registerEndpoints (names : List String) : (String → Option Int) × Nat :=
  registerFrom (fun _ => none) 0 names

theorem registerFrom_not_mem (bits : String → Option Int) (c : Nat)
    (names : List String) (k : String) (hk : k ∉ names) :
    (registerFrom bits c names).1 k = bits k := by
  induction names generalizing bits c with
  | nil => rfl
  | cons nm rest ih =>
      have hk' : k ≠ nm ∧ k ∉ rest := by
        constructor
        · intro h; exact hk (h ▸ List.mem_cons_self nm rest)
        · intro h; exact hk (List.mem_cons_of_mem nm h)
      simp only [registerFrom]
      rw [ih _ _ hk'.2]
      simp [hk'.1]

theorem registerFrom_get (names : List String) (hnd : names.Nodup)
    (bits : String → Option Int) (c : Nat) (i : Nat) (hi : i < names.length) :
    (registerFrom bits c names).1 (names.get ⟨i, hi⟩) = some (jsShl1 (c + i)) := by
  induction names generalizing bits c i with
  | nil => exact absurd hi (by simp)
  | cons nm rest ih =>
      have hnd' := List.nodup_cons.mp hnd
      cases i with
      | zero =>
          show (registerFrom _ (c + 1) rest).1 nm = some (jsShl1 (c + 0))
          rw [registerFrom_not_mem _ _ _ _ hnd'.1]
          simp
      | succ j =>
          have hj : j < rest.length := by simpa using hi
          show (registerFrom _ (c + 1) rest).1 (rest.get ⟨j, hj⟩) = _
          rw [ih hnd'.2 _ (c + 1) j hj]
          congr 2
          omega

set_option maxRecDepth 8192 in
/-- Claim C6, counterexample.  Registering 33 endpoints raises no error at
all (registration is total, the source has no CapacityError), and the 33rd
endpoint is silently assigned the same bit 1 as the first one: the shift
wraps instead of failing. -/
theorem C6_bit_wrap_cex :
    (registerEndpoints ((List.range 33).map (fun i => toString i))).1 "32" = some 1
    ∧ (registerEndpoints ((List.range 33).map (fun i => toString i))).1 "0" = some 1
    ∧ (registerEndpoints ((List.range 33).map (fun i => toString i))).2 = 33 := by
  refine ⟨by decide, by decide, by decide⟩

/-- Claim C6, amended: each registered endpoint (distinct names) is
assigned the bit `ToInt32(1 << (index mod 32))` in registration order; the
first 32 such bits are pairwise distinct, so within that capacity every
endpoint holds a unique bit; but there is no capacity check: registration
number 33 (index 32) silently wraps back to bit 1, reusing the first
endpoint bit, and no CapacityError exists in the code. -/
theorem C6_bits_amended (names : List String) (hnd : names.Nodup) (i : Nat)
    (hi : i < names.length) :
    (registerEndpoints names).1 (names.get ⟨i, hi⟩) = some (jsShl1 i)
    ∧ ((List.range 32).map jsShl1).Nodup
    ∧ jsShl1 32 = jsShl1 0 := by
  refine ⟨?_, by decide, by decide⟩
  have h := registerFrom_get names hnd (fun _ => none) 0 i hi
  rw [Nat.zero_add] at h
  exact h

/-- Claim C6, witness: registering ["A", "B"] assigns B the bit 1 << 1. -/
theorem C6_bits_amended_witness :
    (registerEndpoints ["A", "B"]).1 (["A", "B"].get ⟨1, by decide⟩) = some (jsShl1 1)
    ∧ ((List.range 32).map jsShl1).Nodup
    ∧ jsShl1 32 = jsShl1 0 :=
  C6_bits_amended ["A", "B"] (by decide) 1 (by decide)

/-- Dynamic read-path state of one endpoint: the cache object the closure
holds, the next fresh promise handle, which key each issued handle is
fetching, which handles have settled, and how many fetches were issued per
key. -/
structure ReadState where
  cache : Table
  fresh : Nat
  handleKey : Nat → Option String
  settled : Nat → Bool
  fetches : String → Nat

/-- Events on one endpoint cache: a component read (readCache), the
settlement of an issued fetch promise (the completion callbacks attached
by readCache assign cache[id] unconditionally), eviction of one key,
whole-cache eviction, and a direct write (the create/update paths). -/
inductive CacheEv where
  | read (id : String)
  | settleOk (h : Nat) (v : JsValue)
  | settleErr (h : Nat) (e : JsValue)
  | evict (id : String)
  | evictAll
  | write (id : String) (v : JsValue)
deriving DecidableEq, Repr

/-- Events of the pure read path: reads and settlements only. -/
def isPure : CacheEv → Bool
  | .read _ => true
  | .settleOk _ _ => true
  | .settleErr _ _ => true
  | .evict _ => false
  | .evictAll => false
  | .write _ _ => false

/-- State after the promise of handle h, fetching key id, settles with
entry ent: the completion callback assigns cache[id] unconditionally and
the promise is marked settled. -/
def settleState (s : ReadState) (h : Nat) (id : String) (ent : CacheEntry) : ReadState :=
  { s with
      cache := fun k => if k = id then some ent else s.cache k
      settled := fun h' => if h' = h then true else s.settled h' }

/-- One step of the read-path system.  A read runs readCache; a
settlement fires the completion callback of handle h unless the promise
already settled or was never issued; evictions and writes are the
invalidator and the mutation write path. -/
def stepEv (s : ReadState) : CacheEv → ReadState
  | .read id =>
      let r := readCache s.cache s.fresh id
      { cache := r.2.1
        fresh := r.2.2.1
        handleKey :=
          if r.2.2.2 then (fun h => if h = s.fresh then some id else s.handleKey h)
          else s.handleKey
        settled := s.settled
        fetches :=
          if r.2.2.2 then (fun k => if k = id then s.fetches k + 1 else s.fetches k)
          else s.fetches }
  | .settleOk h v =>
      if s.settled h then s
      else
        match s.handleKey h with
        | some id => settleState s h id (.resolved v)
        | none => s
  | .settleErr h e =>
      if s.settled h then s
      else
        match s.handleKey h with
        | some id => settleState s h id (.rejected e)
        | none => s
  | .evict id => { s with cache := fun k => if k = id then none else s.cache k }
  | .evictAll => { s with cache := fun _ => none }
  | .write id v =>
      { s with cache := fun k => if k = id then some (.resolved v) else s.cache k }

/-- Run a list of events from a state. -/
def runEvs (s : ReadState) (evs : List CacheEv) : ReadState := evs.foldl stepEv s

/-- The initial state: empty cache, no handles issued. -/
def initReadState : ReadState where
  cache := fun _ => none
  fresh := 0
  handleKey := fun _ => none
  settled := fun _ => false
  fetches := fun _ => 0

/-- The state a read miss on id produces. -/
def missState (s : ReadState) (id : String) : ReadState where
  cache := fun k => if k = id then some (.pending s.fresh) else s.cache k
  fresh := s.fresh + 1
  handleKey := fun h => if h = s.fresh then some id else s.handleKey h
  settled := s.settled
  fetches := fun k => if k = id then s.fetches k + 1 else s.fetches k

theorem stepEv_read_miss (s : ReadState) (id : String) (hc : s.cache id = none) :
    stepEv s (.read id) = missState s id := by
  simp [stepEv, readCache, hc, missState]

theorem stepEv_read_hit (s : ReadState) (id : String) (ent : CacheEntry)
    (hc : s.cache id = some ent) :
    stepEv s (.read id) = s := by
  cases ent <;> simp [stepEv, readCache, hc]

/-- Invariant of the pure read path at a fixed key k: unissued handles
have no key, settled handles were issued, a missing entry means no fetch
for k was ever issued, a pending entry corresponds to exactly one issued
and unsettled handle and exactly one fetch, and a resolved or rejected
entry means every handle for k has settled and exactly one fetch was
issued. -/
structure PureInv (k : String) (s : ReadState) : Prop where
  freshBound : ∀ h, s.fresh ≤ h → s.handleKey h = none
  settledIssued : ∀ h, s.settled h = true → s.handleKey h ≠ none
  noneCase : s.cache k = none → (∀ h, s.handleKey h ≠ some k) ∧ s.fetches k = 0
  pendingCase : ∀ h, s.cache k = some (.pending h) →
      s.handleKey h = some k ∧ s.settled h = false
        ∧ (∀ h', s.handleKey h' = some k → h' = h) ∧ s.fetches k = 1
  doneCase : ∀ ent, s.cache k = some ent → (∀ h0, ent ≠ .pending h0) →
      (∀ h, s.handleKey h = some k → s.settled h = true) ∧ s.fetches k = 1

theorem pureInv_init (k : String) : PureInv k initReadState := by
  refine ⟨?_, ?_, ?_, ?_, ?_⟩ <;> simp [initReadState]

/-- Under the invariant, an issued unsettled handle for k means the entry
at k is exactly pending on that handle. -/
theorem pending_of_unsettled (k : String) (s : ReadState) (h : Nat)
    (hI : PureInv k s) (hk : s.handleKey h = some k) (hs : s.settled h = false) :
    s.cache k = some (.pending h) := by
  cases hck : s.cache k with
  | none => exact absurd hk ((hI.noneCase hck).1 h)
  | some ent =>
      cases ent with
      | pending h0 =>
          have := (hI.pendingCase h0 hck).2.2.1 h hk
          rw [this]
      | resolved v =>
          have := (hI.doneCase _ hck (by simp)).1 h hk
          rw [this] at hs
          cases hs
      | rejected e =>
          have := (hI.doneCase _ hck (by simp)).1 h hk
          rw [this] at hs
          cases hs

theorem pureInv_miss (k id : String) (s : ReadState) (hI : PureInv k s)
    (hc : s.cache id = none) : PureInv k (missState s id) := by
  refine ⟨?_, ?_, ?_, ?_, ?_⟩
  · intro h hh
    simp only [missState]
    have hne : ¬(h = s.fresh) := by
      simp only [missState] at hh; omega
    simp only [if_neg hne]
    exact hI.freshBound h (by simp only [missState] at hh; omega)
  · intro h hset
    simp only [missState] at hset ⊢
    by_cases he : h = s.fresh
    · simp [he]
    · simp only [if_neg he]
      exact hI.settledIssued h hset
  · intro hnone
    simp only [missState] at hnone ⊢
    by_cases hkid : k = id
    · rw [if_pos hkid] at hnone; cases hnone
    · rw [if_neg hkid] at hnone
      obtain ⟨hh, hf⟩ := hI.noneCase hnone
      refine ⟨?_, by simp [if_neg hkid, hf]⟩
      intro h
      by_cases he : h = s.fresh
      · simp only [if_pos he]
        intro hcon
        exact hkid (by injection hcon with h1; exact h1.symm)
      · simp only [if_neg he]
        exact hh h
  · intro h hp
    simp only [missState] at hp ⊢
    by_cases hkid : k = id
    · rw [if_pos hkid] at hp
      have hh : h = s.fresh := by
        injection hp with hp'; injection hp' with hp''; omega
      subst hh
      subst hkid
      obtain ⟨hnil, hf0⟩ := hI.noneCase hc
      refine ⟨by simp, ?_, ?_, by simp [hf0]⟩
      · by_cases hset : s.settled s.fresh = true
        · exact absurd (hI.settledIssued _ hset) (by simp [hI.freshBound s.fresh le_rfl])
        · simpa using hset
      · intro h'
        by_cases he : h' = s.fresh
        · simp [he]
        · simp only [if_neg he]
          intro hcon
          exact absurd hcon (hnil h')
    · rw [if_neg hkid] at hp
      obtain ⟨ha, hb, hu, hf⟩ := hI.pendingCase h hp
      have hhf : ¬(h = s.fresh) := by
        intro he
        rw [he, hI.freshBound s.fresh le_rfl] at ha
        cases ha
      refine ⟨by simp [if_neg hhf, ha], hb, ?_, by simp [if_neg hkid, hf]⟩
      intro h'
      by_cases he : h' = s.fresh
      · simp only [if_pos he]
        intro hcon
        exact absurd (by injection hcon with h1; exact h1.symm) hkid
      · simp only [if_neg he]
        exact hu h'
  · intro ent hent hnp
    simp only [missState] at hent ⊢
    by_cases hkid : k = id
    · rw [if_pos hkid] at hent
      injection hent with h1
      exact absurd h1.symm (hnp s.fresh)
    · rw [if_neg hkid] at hent
      obtain ⟨ha, hf⟩ := hI.doneCase ent hent hnp
      refine ⟨?_, by simp [if_neg hkid, hf]⟩
      intro h
      by_cases he : h = s.fresh
      · simp only [if_pos he]
        intro hcon
        exact absurd (by injection hcon with h1; exact h1.symm) hkid
      · simp only [if_neg he]
        exact ha h

theorem pureInv_settle (k : String) (s : ReadState) (h : Nat) (id : String)
    (ent : CacheEntry) (hI : PureInv k s) (hs : s.settled h = false)
    (hk : s.handleKey h = some id) (hent : ∀ h0, ent ≠ .pending h0) :
    PureInv k (settleState s h id ent) := by
  refine ⟨?_, ?_, ?_, ?_, ?_⟩
  · intro h0 hh
    simp only [settleState]
    exact hI.freshBound h0 hh
  · intro h0 hset
    simp only [settleState] at hset ⊢
    by_cases he : h0 = h
    · rw [he, hk]; simp
    · rw [if_neg he] at hset
      exact hI.settledIssued h0 hset
  · intro hnone
    simp only [settleState] at hnone ⊢
    by_cases hkid : k = id
    · rw [if_pos hkid] at hnone; cases hnone
    · rw [if_neg hkid] at hnone
      exact hI.noneCase hnone
  · intro h0 hp
    simp only [settleState] at hp ⊢
    by_cases hkid : k = id
    · rw [if_pos hkid] at hp
      injection hp with h1
      exact absurd h1 (hent h0)
    · rw [if_neg hkid] at hp
      obtain ⟨ha, hb, hu, hf⟩ := hI.pendingCase h0 hp
      have hne : ¬(h0 = h) := by
        intro he
        rw [he, hk] at ha
        exact hkid (by injection ha with h1; exact h1.symm)
      exact ⟨ha, by simp [if_neg hne, hb], hu, hf⟩
  · intro ent0 hent0 hnp
    simp only [settleState] at hent0 ⊢
    by_cases hkid : k = id
    · subst hkid
      have hpend : s.cache k = some (.pending h) :=
        pending_of_unsettled k s h hI hk hs
      obtain ⟨ha, hb, hu, hf⟩ := hI.pendingCase h hpend
      refine ⟨?_, hf⟩
      intro h' hk'
      by_cases he : h' = h
      · simp [he]
      · exact absurd (hu h' hk') he
    · rw [if_neg hkid] at hent0
      obtain ⟨ha, hf⟩ := hI.doneCase ent0 hent0 hnp
      refine ⟨?_, hf⟩
      intro h' hk'
      by_cases he : h' = h
      · simp [he]
      · simp only [if_neg he]
        exact ha h' hk'

theorem pureInv_step (k : String) (s : ReadState) (e : CacheEv)
    (hI : PureInv k s) (he : isPure e = true) : PureInv k (stepEv s e) := by
  cases e with
  | read id =>
      cases hc : s.cache id with
      | none => rw [stepEv_read_miss s id hc]; exact pureInv_miss k id s hI hc
      | some ent => rw [stepEv_read_hit s id ent hc]; exact hI
  | settleOk h v =>
      show PureInv k (if s.settled h then s else _)
      by_cases hs : s.settled h
      · rw [if_pos hs]; exact hI
      · rw [if_neg hs]
        cases hk : s.handleKey h with
        | none => exact hI
        | some id =>
            exact pureInv_settle k s h id (.resolved v) hI (by simpa using hs) hk
              (by simp)
  | settleErr h e =>
      show PureInv k (if s.settled h then s else _)
      by_cases hs : s.settled h
      · rw [if_pos hs]; exact hI
      · rw [if_neg hs]
        cases hk : s.handleKey h with
        | none => exact hI
        | some id =>
            exact pureInv_settle k s h id (.rejected e) hI (by simpa using hs) hk
              (by simp)
  | evict id => cases he
  | evictAll => cases he
  | write id v => cases he

theorem pureInv_run (k : String) (evs : List CacheEv) (s : ReadState)
    (hI : PureInv k s) (hp : ∀ e ∈ evs, isPure e = true) :
    PureInv k (runEvs s evs) := by
  induction evs generalizing s with
  | nil => exact hI
  | cons e evs ih =>
      exact ih (stepEv s e) (pureInv_step k s e hI (hp e (by simp)))
        (fun e' he' => hp e' (by simp [he']))

/-- Under the invariant, a single pure event leaves the entry at k absent
exactly when it was absent before and the event is not a read of k. -/
theorem cache_none_step (k : String) (s : ReadState) (e : CacheEv)
    (hI : PureInv k s) (he : isPure e = true) :
    ((stepEv s e).cache k = none) ↔ (s.cache k = none ∧ CacheEv.read k ≠ e) := by
  cases e with
  | read id =>
      by_cases hkid : k = id
      · subst hkid
        cases hc : s.cache k with
        | none =>
            rw [stepEv_read_miss s k hc]
            simp [missState]
        | some ent =>
            rw [stepEv_read_hit s k ent hc]
            simp [hc]
      · cases hc : s.cache id with
        | none =>
            rw [stepEv_read_miss s id hc]
            simp only [missState, if_neg hkid]
            simp [hkid]
        | some ent =>
            rw [stepEv_read_hit s id ent hc]
            simp [hkid]
  | settleOk h v =>
      show ((if s.settled h then s else _).cache k = none) ↔ _
      by_cases hs : s.settled h
      · rw [if_pos hs]; simp
      · rw [if_neg hs]
        cases hk : s.handleKey h with
        | none => simp
        | some id =>
            simp only [settleState]
            by_cases hkid : k = id
            · subst hkid
              have hpend : s.cache k = some (.pending h) :=
                pending_of_unsettled k s h hI hk (by simpa using hs)
              simp [hpend]
            · simp [if_neg hkid]
  | settleErr h e =>
      show ((if s.settled h then s else _).cache k = none) ↔ _
      by_cases hs : s.settled h
      · rw [if_pos hs]; simp
      · rw [if_neg hs]
        cases hk : s.handleKey h with
        | none => simp
        | some id =>
            simp only [settleState]
            by_cases hkid : k = id
            · subst hkid
              have hpend : s.cache k = some (.pending h) :=
                pending_of_unsettled k s h hI hk (by simpa using hs)
              simp [hpend]
            · simp [if_neg hkid]
  | evict id => cases he
  | evictAll => cases he
  | write id v => cases he

theorem cache_none_run (k : String) (evs : List CacheEv) (s : ReadState)
    (hI : PureInv k s) (hp : ∀ e ∈ evs, isPure e = true) :
    ((runEvs s evs).cache k = none)
      ↔ (s.cache k = none ∧ CacheEv.read k ∉ evs) := by
  induction evs generalizing s with
  | nil => simp [runEvs]
  | cons e evs ih =>
      have hstep := cache_none_step k s e hI (hp e (by simp))
      have hrest := ih (stepEv s e) (pureInv_step k s e hI (hp e (by simp)))
        (fun e' he' => hp e' (by simp [he']))
      show ((runEvs (stepEv s e) evs).cache k = none) ↔ _
      rw [hrest, hstep]
      simp only [List.mem_cons, not_or]
      constructor
      · rintro ⟨⟨h1, h2⟩, h3⟩
        exact ⟨h1, h2, h3⟩
      · rintro ⟨h1, h2, h3⟩
        exact ⟨⟨h1, h2⟩, h3⟩

/-- Under the invariant, the fetch count at k is determined by the entry:
0 while absent, 1 otherwise. -/
theorem pureInv_fetches (k : String) (s : ReadState) (hI : PureInv k s) :
    s.fetches k = if s.cache k = none then 0 else 1 := by
  cases hck : s.cache k with
  | none => simp [(hI.noneCase hck).2]
  | some ent =>
      cases ent with
      | pending h => simp [(hI.pendingCase h hck).2.2.2]
      | resolved v => simp [(hI.doneCase _ hck (by simp)).2]
      | rejected e => simp [(hI.doneCase _ hck (by simp)).2]

/-- Claim C1: readCache issues the underlying fetch only on a miss, where
it stores a Pending entry on the fresh handle and raises that handle; a
read hitting a Pending entry re-raises the identical stored handle with no
fetch and no state change; a hit on Rejected raises the stored error; a
hit on Resolved returns the stored value synchronously; and along any
sequence of reads and fetch settlements on the same key with no
intervening eviction or direct write, starting from the empty cache,
exactly one fetch is issued for that key (one if the key was read at all,
zero otherwise). -/
theorem C1_readCache_single_fetch :
    (∀ (c : Table) (fr : Nat) (id : String), c id = none →
        readCache c fr id
          = (.suspend fr, fun k => if k = id then some (.pending fr) else c k,
              fr + 1, true))
    ∧ (∀ (c : Table) (fr : Nat) (id : String) (h : Nat),
        c id = some (.pending h) →
        readCache c fr id = (.suspend h, c, fr, false))
    ∧ (∀ (c : Table) (fr : Nat) (id : String) (e : JsValue),
        c id = some (.rejected e) →
        readCache c fr id = (.failure e, c, fr, false))
    ∧ (∀ (c : Table) (fr : Nat) (id : String) (v : JsValue),
        c id = some (.resolved v) →
        readCache c fr id = (.value v, c, fr, false))
    ∧ (∀ (evs : List CacheEv) (k : String), (∀ e ∈ evs, isPure e = true) →
        (runEvs initReadState evs).fetches k
          = if CacheEv.read k ∈ evs then 1 else 0) := by
  refine ⟨?_, ?_, ?_, ?_, ?_⟩
  · intro c fr id hc; simp [readCache, hc]
  · intro c fr id h hc; simp [readCache, hc]
  · intro c fr id e hc; simp [readCache, hc]
  · intro c fr id v hc; simp [readCache, hc]
  · intro evs k hp
    have hIf := pureInv_run k evs initReadState (pureInv_init k) hp
    have hiff := cache_none_run k evs initReadState (pureInv_init k) hp
    have hfet := pureInv_fetches k _ hIf
    have hinit : initReadState.cache k = none := rfl
    by_cases hm : CacheEv.read k ∈ evs
    · rw [if_pos hm, hfet, if_neg ?_]
      rw [hiff]
      rintro ⟨_, hnm⟩
      exact hnm hm
    · rw [if_neg hm, hfet, if_pos ?_]
      rw [hiff]
      exact ⟨hinit, hm⟩

/-- Claim C1, witness: three reads of "a" around a settlement of its fetch
issue exactly one fetch. -/
theorem C1_readCache_single_fetch_witness :
    (runEvs initReadState
      [CacheEv.read "a", CacheEv.read "a", CacheEv.settleOk 0 (JsValue.num 7),
        CacheEv.read "a"]).fetches "a" = 1 := by
  have h := C1_readCache_single_fetch.2.2.2.2
    [CacheEv.read "a", CacheEv.read "a", CacheEv.settleOk 0 (JsValue.num 7),
      CacheEv.read "a"] "a" (by decide)
  rw [if_pos (by decide)] at h
  exact h

/-- A forward cache transition at one key: unchanged, a miss starting a
fresh Pending entry, or a Pending entry settling to Resolved or
Rejected. -/
def forwardStep (a b : Option CacheEntry) : Prop :=
  a = b
  ∨ (a = none ∧ ∃ h, b = some (.pending h))
  ∨ (∃ h v, a = some (.pending h) ∧ b = some (.resolved v))
  ∨ (∃ h e, a = some (.pending h) ∧ b = some (.rejected e))

theorem forward_of_step (k : String) (s : ReadState) (e : CacheEv)
    (hI : PureInv k s) (he : isPure e = true) :
    forwardStep (s.cache k) ((stepEv s e).cache k) := by
  cases e with
  | read id =>
      cases hc : s.cache id with
      | none =>
          rw [stepEv_read_miss s id hc]
          by_cases hkid : k = id
          · subst hkid
            exact Or.inr (Or.inl ⟨hc, s.fresh, by simp [missState]⟩)
          · exact Or.inl (by simp [missState, if_neg hkid])
      | some ent =>
          rw [stepEv_read_hit s id ent hc]
          exact Or.inl rfl
  | settleOk h v =>
      show forwardStep (s.cache k) ((if s.settled h then s else _).cache k)
      by_cases hs : s.settled h
      · rw [if_pos hs]; exact Or.inl rfl
      · rw [if_neg hs]
        cases hk : s.handleKey h with
        | none => exact Or.inl rfl
        | some id =>
            by_cases hkid : k = id
            · subst hkid
              have hpend : s.cache k = some (.pending h) :=
                pending_of_unsettled k s h hI hk (by simpa using hs)
              exact Or.inr (Or.inr (Or.inl ⟨h, v, hpend, by simp [settleState]⟩))
            · exact Or.inl (by simp [settleState, if_neg hkid])
  | settleErr h e =>
      show forwardStep (s.cache k) ((if s.settled h then s else _).cache k)
      by_cases hs : s.settled h
      · rw [if_pos hs]; exact Or.inl rfl
      · rw [if_neg hs]
        cases hk : s.handleKey h with
        | none => exact Or.inl rfl
        | some id =>
            by_cases hkid : k = id
            · subst hkid
              have hpend : s.cache k = some (.pending h) :=
                pending_of_unsettled k s h hI hk (by simpa using hs)
              exact Or.inr (Or.inr (Or.inr ⟨h, e, hpend, by simp [settleState]⟩))
            · exact Or.inl (by simp [settleState, if_neg hkid])
  | evict id => cases he
  | evictAll => cases he
  | write id v => cases he

/-- Claim C9, counterexample.  Trace: read "1" (fetch handle 0), evict
"1", read "1" again (fresh fetch handle 1), handle 1 settles resolved,
then the STALE handle 0 settles rejected.  The completion callback of the
old fetch overwrites the entry produced by the fresh fetch: the entry at
"1" goes from Resolved to Rejected although the fifth event is a
settlement, not an eviction, so a completion callback does replace an
entry belonging to a different, fresher fetch of the same key. -/
theorem C9_stale_settle_cex :
    (runEvs initReadState
      [CacheEv.read "1", CacheEv.evict "1", CacheEv.read "1",
        CacheEv.settleOk 1 (JsValue.num 2)]).cache "1"
      = some (.resolved (.num 2))
    ∧ (runEvs initReadState
      [CacheEv.read "1", CacheEv.evict "1", CacheEv.read "1",
        CacheEv.settleOk 1 (JsValue.num 2),
        CacheEv.settleErr 0 (JsValue.str "boom")]).cache "1"
      = some (.rejected (.str "boom"))
    ∧ isPure (CacheEv.settleErr 0 (JsValue.str "boom")) = true := by
  refine ⟨by decide, by decide, by decide⟩

/-- Claim C9, amended: each (endpoint, id) pair holds at most one entry
(the cache is a map), and along any interleaving of reads and fetch
completions with no eviction and no direct write, every transition of a
key's entry is forward: absent to Pending, Pending to Resolved, or Pending
to Rejected, never reversed.  With evictions interleaved this fails: a
completion callback assigns its key unconditionally, so a stale fetch's
completion replaces the entry belonging to a fresh fetch of the same key
(see the counterexample). -/
theorem C9_forward_transitions_amended (evs : List CacheEv) (k : String)
    (i : Nat) (hi : i < evs.length) (hp : ∀ e ∈ evs, isPure e = true) :
    forwardStep ((runEvs initReadState (evs.take i)).cache k)
      ((runEvs initReadState (evs.take (i + 1))).cache k) := by
  have htake : evs.take (i + 1) = evs.take i ++ [evs.get ⟨i, hi⟩] := by
    rw [List.take_succ]
    congr 1
    rw [List.getElem?_eq_getElem hi]
    simp [List.get_eq_getElem]
  rw [htake]
  have hrun : runEvs initReadState (evs.take i ++ [evs.get ⟨i, hi⟩])
      = stepEv (runEvs initReadState (evs.take i)) (evs.get ⟨i, hi⟩) := by
    show List.foldl stepEv initReadState (evs.take i ++ [evs.get ⟨i, hi⟩]) = _
    rw [List.foldl_append]
    rfl
  rw [hrun]
  exact forward_of_step k _ _
    (pureInv_run k _ _ (pureInv_init k)
      (fun e he => hp e (List.take_subset i evs he)))
    (hp _ (evs.get_mem _ _))

/-- Claim C9, witness: after one read of "a", the settlement of its fetch
is a forward transition of the entry at "a". -/
theorem C9_forward_transitions_amended_witness :
    forwardStep
      ((runEvs initReadState
        ([CacheEv.read "a", CacheEv.settleOk 0 (JsValue.num 5)].take 1)).cache "a")
      ((runEvs initReadState
        ([CacheEv.read "a", CacheEv.settleOk 0 (JsValue.num 5)].take 2)).cache "a") :=
  C9_forward_transitions_amended
    [CacheEv.read "a", CacheEv.settleOk 0 (JsValue.num 5)] "a" 1 (by decide)
    (by decide)
